import Mathlib

/-
Verification of the AWS Batch job driver (cosmos/job/drm/drm_awsbatch.py).

The Python module is shallowly embedded below.  Remote services (object
storage, the batch service, the log service) are modelled by explicit
parameters and by traces of the remote calls a function performs; Python
exceptions are modelled by the error side of an Except value.
-/

/-- Python exceptions raised by the module, as an error type. -/
inductive PyErr where
  | valueError (msg : String)
  | attributeError
  | keyError
  | assertionError
  | jobStatusMismatchError
  deriving DecidableEq, Repr

deriving instance DecidableEq for Except

/- ------------------------------------------------------------------
split_bucket_key (drm_awsbatch.py lines 30-38)

    bucket, key = re.search("s3://(.+?)/(.+)", s3_uri).groups()
    if key == "":
        raise ValueError("no prefix in %s" % s3_uri)
    return bucket, key

The regular expression is embedded faithfully: the dot matches every
character except a newline, the first group is lazy (shortest match
first), the second group is greedy, and the search tries successive
start positions from the left.  When the pattern does not match,
re.search returns None and calling .groups() on it raises
AttributeError.
------------------------------------------------------------------ -/

/-- Characters matched by the regex dot: anything but a newline. -/
def dotChar (c : Char) : Bool := c != '\n'

/-- Matching of the suffix of the pattern after the literal, namely a
lazy nonempty group 1, a slash, and a greedy nonempty group 2.
accRev holds (reversed) the characters already committed to group 1.
Candidates for group 1 are tried shortest first, as the lazy
quantifier does. -/
def lazySplitAux (accRev : List Char) : List Char → Option (List Char × List Char)
  | [] => none
  | c :: rest =>
    if dotChar c then
      match rest with
      | c2 :: rest2 =>
        if c2 = '/' then
          if (rest2.takeWhile dotChar).isEmpty then lazySplitAux (c :: accRev) rest
          else some ((c :: accRev).reverse, rest2.takeWhile dotChar)
        else lazySplitAux (c :: accRev) rest
      | [] => lazySplitAux (c :: accRev) rest
    else none

/-- One attempt to match the whole pattern at the start of the list:
the five literal characters of the scheme, then the groups. -/
def matchS3At : List Char → Option (List Char × List Char)
  | a :: b :: c :: d :: e :: rest =>
    if a = 's' ∧ b = '3' ∧ c = ':' ∧ d = '/' ∧ e = '/' then lazySplitAux [] rest
    else none
  | _ => none

/-- re.search: try the pattern at every start position, leftmost first. -/
def reSearchS3 : List Char → Option (List Char × List Char)
  | [] => none
  | c :: rest =>
    match matchS3At (c :: rest) with
    | some r => some r
    | none => reSearchS3 rest

/-- split_bucket_key.  A failed regex search means re.search returned
None, so .groups() raises AttributeError.  The explicit ValueError
branch of the source is kept, although group 2 of the pattern can
never be empty. -/
def split_bucket_key (s3_uri : String) : Except PyErr (String × String) :=
  match reSearchS3 s3_uri.toList with
  | none => .error .attributeError
  | some (bucket, key) =>
    if String.mk key = "" then .error (.valueError ("no prefix in " ++ s3_uri))
    else .ok (String.mk bucket, String.mk key)

/- ------------------------------------------------------------------
get_logs_from_log_stream (drm_awsbatch.py lines 138-172)

The log service is modelled per attempt: each element of the
environment list is either none (get_log_events raises
ResourceNotFoundException during that attempt) or some pages (the
successive responses of that attempt, each carrying a message list
and a nextForwardToken).  The workflow argument is modelled by
sig : Option Bool, none when workflow is None and some b when a
workflow is present whose termination_signal is in
TERMINATION_SIGNALS iff b = true.
------------------------------------------------------------------ -/

/-- One response of the log service. -/
structure LogPage where
  messages : List String
  nextForwardToken : String
  deriving DecidableEq, Repr

/-- The pagination loop (lines 147-162).  Messages of a response are
accumulated before the token test, so the page whose token repeats
still contributes its messages.  After advancing the token the loop
also breaks when a workflow was supplied and its termination signal
is NOT in TERMINATION_SIGNALS (line 161: the membership test reads
`not in`), i.e. exactly when sig = some false. -/
def collectLogEvents (sig : Option Bool) : List LogPage → Option String → Option (List String)
  | [], _ => none
  | page :: rest, prev =>
    if prev = some page.nextForwardToken then some page.messages
    else if sig = some false then some page.messages
    else (collectLogEvents sig rest (some page.nextForwardToken)).map (page.messages ++ ·)

/-- Line 164: newline-join of the messages, dropping every message that
contains a carriage return. -/
def joinFilteredMessages (messages : List String) : String :=
  String.intercalate "\n" (messages.filter (fun m => !(m.toList.contains '\r')))

/-- The body of the try block: paginate from the head of the stream and
join the filtered messages.  none means the modelled response list was
exhausted before the loop terminated (a real service answers every
request, so the claims supply terminating page lists). -/
def getLogsText (sig : Option Bool) (pages : List LogPage) : Option String :=
  (collectLogEvents sig pages none).map joinFilteredMessages

/-- get_logs_from_log_stream with its retry wrapper (lines 144-172):
a ResourceNotFoundException attempt either returns the placeholder
string (when at most one attempt is left) or sleeps and recurses with
attempts - 1.  The recursive call does not pass the workflow on, so
retries run with sig = none. -/
def get_logs_from_log_stream (log_stream_name : String) (sig : Option Bool) :
    List (Option (List LogPage)) → Nat → Option String
  | [], _ => none
  | some pages :: _, _ => getLogsText sig pages
  | none :: rest, attempts =>
    if attempts ≤ 1 then
      some ("log stream not found for log_stream_name: " ++ log_stream_name ++ "\n")
    else
      get_logs_from_log_stream log_stream_name none rest (attempts - 1)

/- ------------------------------------------------------------------
submit_script_as_aws_batch_job (drm_awsbatch.py lines 41-135)

The boto3 clients are modelled by a trace of the remote calls the
function performs (the script upload and the job submission) together
with the value the submit call returns (submitJobId).  random_string(32)
is modelled by the parameter rnd.
------------------------------------------------------------------ -/

/-- An entry of a containerOverrides environment list. -/
structure EnvVar where
  name : String
  value : String
  deriving DecidableEq, Repr

/-- An entry of a resourceRequirements list. -/
structure ResourceReq where
  value : String
  type : String
  deriving DecidableEq, Repr

/-- The containerOverrides payload built at lines 101-116. -/
structure ContainerOverrides where
  resourceRequirements : List ResourceReq
  environment : List EnvVar
  command : List String
  memory : Option Int
  vcpus : Option Int
  instanceType : Option String
  deriving DecidableEq, Repr

/-- Remote calls performed by the submission path. -/
inductive RemoteEvent where
  | uploadFile (local_script_path bucket key : String)
  | submitJob (jobName jobQueue jobDefinition : String) (overrides : ContainerOverrides)
      (tags : List (String × String))
  deriving DecidableEq, Repr

/-- The character class of the second atom of the job-name pattern:
letters, digits, hyphen and underscore. -/
def isJobNameChar (c : Char) : Bool := c.isAlphanum || c == '-' || c == '_'

/-- Matching of the body of the pattern of line 118 against a whole
string: a leading alphanumeric character followed by characters of
the class. -/
def jobNameRegexCore : List Char → Bool
  | [] => false
  | c :: rest => c.isAlphanum && rest.all isJobNameChar

/-- Python re.match("^[A-Za-z0-9][A-Za-z0-9-_]*$", s): the dollar
anchor also matches just before a newline that ends the string, so a
string consisting of a matching body plus one trailing newline is
accepted as well. -/
def matchesJobNameRegex (s : String) : Bool :=
  jobNameRegexCore s.toList ||
    (decide (s.toList.getLast? = some '\n') && jobNameRegexCore s.toList.dropLast)

/-- The validity notion used by the claim (and section 8 of the spec),
written from the spec words: alphanumeric start, only
letters/digits/hyphen/underscore, at most 128 characters. -/
def specValidJobName (s : String) : Bool :=
  jobNameRegexCore s.toList && decide (s.length ≤ 128)

/-- The containerOverrides construction, lines 101-116. -/
def buildContainerOverrides (environment : List (String × String)) (command : String)
    (memory vpu_req : Option Int) (instance_type : Option String)
    (gpu_req : Option Nat) : ContainerOverrides :=
  let base : ContainerOverrides :=
    { resourceRequirements := []
      environment := environment.map (fun p => { name := p.1, value := p.2 })
      command := ["bash", "-c", command]
      memory := memory
      vcpus := vpu_req
      instanceType := instance_type }
  match gpu_req with
  | some gpu =>
    if gpu ≠ 0 then
      { base with
        resourceRequirements := base.resourceRequirements ++ [{ value := toString gpu, type := "GPU" }]
        environment := base.environment ++
          [{ name := "CUDA_VISIBLE_DEVICES"
             value := String.intercalate "," ((List.range gpu).map toString) }] }
    else base
  | none => base

/-- submit_script_as_aws_batch_job.  Returns the Python return value
(jobId, s3_command_script_uri) or the exception, paired with the trace
of remote calls performed before returning or raising.  Note the order
of the source: the space/colon test and the prefix tests run first,
then the script is uploaded to object storage (line 87), and only then
is the job name checked against the pattern and the length cap
(line 118), before submit_job (line 125). -/
def submit_script_as_aws_batch_job (local_script_path : String)
    (s3_prefix_for_command_script_temp_files : String) (job_name : String)
    (job_def_arn job_queue : String)
    (instance_type : Option String) (memory vpu_req : Option Int)
    (gpu_req : Option Nat) (environment : List (String × String))
    (tags : List (String × String))
    (rnd submitJobId : String) :
    Except PyErr (String × String) × List RemoteEvent :=
  if job_name.toList.contains ' ' || job_name.toList.contains ':' then
    (.error (.valueError ("job_name is invalid: " ++ job_name)), [])
  else if s3_prefix_for_command_script_temp_files.toList.getLast? = some '/' then
    (.error (.valueError "s3 prefix should not have a trailing slash"), [])
  else if !("s3://".toList.isPrefixOf s3_prefix_for_command_script_temp_files.toList) then
    (.error (.valueError "invalid s3 prefix"), [])
  else
    match split_bucket_key s3_prefix_for_command_script_temp_files with
    | .error e => (.error e, [])
    | .ok (bucket, key0) =>
      let key := key0 ++ "/" ++ rnd ++ "." ++ job_name ++ ".script"
      let events := [RemoteEvent.uploadFile local_script_path bucket key]
      let s3_command_script_uri := "s3://" ++ bucket ++ "/" ++ key
      let command := "aws s3 cp --quiet " ++ s3_command_script_uri ++
        " command_script && chmod +x command_script && ./command_script"
      let overrides := buildContainerOverrides environment command memory vpu_req
        instance_type gpu_req
      if !(matchesJobNameRegex job_name) || decide (job_name.length > 128) then
        (.error (.valueError (job_name ++ " is not a valid job name")), events)
      else
        (.ok (submitJobId, s3_command_script_uri),
          events ++ [RemoteEvent.submitJob job_name job_queue job_def_arn overrides tags])

/- ------------------------------------------------------------------
The read model of a describe-jobs record and the per-task terminal
processing of DRM_AWSBatch.filter_is_done (lines 430-481).
------------------------------------------------------------------ -/

/-- The container sub-dictionary of an attempt record.  exitCode is
none when the exitCode key is missing. -/
structure AttemptContainer where
  exitCode : Option Int
  reason : Option String
  deriving DecidableEq, Repr

/-- An element of the attempts list of a job record.  container is
none when the attempt has no container key. -/
structure JobAttempt where
  statusReason : Option String
  container : Option AttemptContainer
  deriving DecidableEq, Repr

/-- The top-level container dictionary of a job record. -/
structure JobContainerInfo where
  logStreamName : Option String
  deriving DecidableEq, Repr

/-- A describe-jobs record, with the fields the driver reads.
attempts = none models a record without an attempts key, as opposed to
some [] which models an attempts key holding an empty list. -/
structure JobDict where
  jobId : String
  status : String
  attempts : Option (List JobAttempt)
  container : JobContainerInfo
  startedAt : Option Int
  stoppedAt : Option Int
  deriving DecidableEq, Repr

/-- The outcome dictionary yielded for a terminal task (line 481). -/
structure TaskOutcome where
  exit_status : Int
  wall_time : Int
  status_reason : Option String
  deriving DecidableEq, Repr

/-- Python str() applied to an optional string: None prints as the
four-letter word None. -/
def pyStr : Option String → String
  | none => "None"
  | some s => s

/-- Python round((stoppedAt - startedAt) / 1000) on integer
timestamps: floor quotient and remainder, rounding the exact half to
the even neighbour as float rounding does. -/
def pyRoundDiv1000 (d : Int) : Int :=
  let q := Int.ediv d 1000
  let r := Int.emod d 1000
  if r < 500 then q
  else if 500 < r then q + 1
  else if Int.emod q 2 = 0 then q else q + 1

/-- Lines 476-480: wall time from the stop and start timestamps, zero
(with a warning) when either key is missing. -/
def wallTimeOf (job : JobDict) : Int :=
  match job.stoppedAt, job.startedAt with
  | some e, some s => pyRoundDiv1000 (e - s)
  | _, _ => 0

/-- Lines 470-481: the assert that a FAILED job never carries exit
status 0, then the yielded outcome. -/
def yieldOutcome (job : JobDict) (exit_status : Int) (status_reason : Option String) :
    Except PyErr (Option TaskOutcome) :=
  if job.status = "FAILED" ∧ exit_status = 0 then .error .assertionError
  else .ok (some { exit_status := exit_status, wall_time := wallTimeOf job,
                   status_reason := status_reason })

/-- The per-task body of filter_is_done (lines 443-481) on the job
record of one task: none for a non-terminal job, an outcome for a
terminal one, or the exception raised.  attempts[-1] on an empty list
raises IndexError, caught by the bare except and turned into the
ValueError of line 451; attempt["container"] on an attempt without a
container key raises KeyError (line 465); a record without an attempts
key yields the sentinel exit status -1 with reason no_attempt
(lines 466-468).  The log fetching and file writes of _cleanup_task
are local side effects, not part of this read model. -/
def pollOutcome (job : JobDict) : Except PyErr (Option TaskOutcome) :=
  if job.status = "SUCCEEDED" ∨ job.status = "FAILED" then
    match job.attempts with
    | some attempts =>
      match attempts.getLast? with
      | none => .error (.valueError "Error with job_dict")
      | some attempt =>
        let status_reason :=
          match attempt.statusReason with
          | some s =>
            if s = "" then some s
            else some (s ++ " -- container_reason: " ++ pyStr (attempt.container.bind AttemptContainer.reason))
          | none => none
        match attempt.container with
        | none => .error .keyError
        | some c => yieldOutcome job (c.exitCode.getD (-2)) status_reason
    | none => yieldOutcome job (-1) (some "no_attempt")
  else .ok none

/- ------------------------------------------------------------------
get_aws_batch_job_infos (drm_awsbatch.py lines 198-228)

The describe-jobs endpoint is modelled as a function from the list of
requested ids to the list of returned records (responses whose status
code or failure list would make _check_aws_response_for_error raise
are outside the claims and are not modelled).  sorted(key=...) is
Python's stable sort; it first evaluates the key of every element,
raising ValueError when job_ids.index does not find the id, and is
embedded as the stable insertion sort on the precomputed keys.
------------------------------------------------------------------ -/

/-- Python list.index: the index of the first occurrence, none when
the element is absent (in which case list.index raises ValueError). -/
def pyIndex : List String → String → Option Nat
  | [], _ => none
  | x :: rest, a => if x = a then some 0 else (pyIndex rest a).map (· + 1)

/-- Keys of the sort of line 203: for each returned record, its index
in the requested list; none when some record's id is absent from the
request (list.index raises ValueError). -/
def describeKeyed (job_ids : List String) (jobs : List JobDict) :
    Option (List (Nat × JobDict)) :=
  jobs.mapM (fun j => (pyIndex job_ids j.jobId).map (fun i => (i, j)))

/-- Ordering of keyed records by their key. -/
def keyLE (a b : Nat × JobDict) : Prop := a.1 ≤ b.1

instance keyLE.decidableRel : DecidableRel keyLE := fun a b => Nat.decLe a.1 b.1

instance keyLE.isTotal : IsTotal (Nat × JobDict) keyLE := ⟨fun a b => Nat.le_total a.1 b.1⟩

instance keyLE.isTrans : IsTrans (Nat × JobDict) keyLE := ⟨fun _ _ _ => Nat.le_trans⟩

/-- Lexicographic comparison of character lists by code point, the
order Python uses to compare strings. -/
def lexLe : List Char → List Char → Bool
  | [], _ => true
  | _ :: _, [] => false
  | a :: as, b :: bs => if a = b then lexLe as bs else decide (a.toNat < b.toNat)

/-- The Python string order as a propositional relation. -/
def strLE (a b : String) : Prop := lexLe a.toList b.toList = true

instance strLE.decidableRel : DecidableRel strLE := fun a b =>
  instDecidableEqBool (lexLe a.toList b.toList) true

/-- Python sorted on strings (used twice: in the mismatch test of
line 205 and in the assert of line 225). -/
def sortedStrings (l : List String) : List String := l.insertionSort strLE

/-- _get_aws_batch_job_infos_for_batch (lines 198-207). -/
def get_aws_batch_job_infos_for_batch (describe : List String → List JobDict)
    (job_ids : List String) (missing_ok : Bool) : Except PyErr (List JobDict) :=
  if !(decide job_ids.Nodup) then .error .assertionError
  else
    match describeKeyed job_ids (describe job_ids) with
    | none => .error (.valueError "is not in list")
    | some keyed =>
      let returned_jobs := (keyed.insertionSort keyLE).map (fun p => p.2)
      if !missing_ok &&
          decide (sortedStrings (returned_jobs.map (fun j => j.jobId)) ≠ sortedStrings job_ids) then
        .error .jobStatusMismatchError
      else .ok returned_jobs

/-- more_itertools.chunked with chunk size n + 1, by fuel (the fuel is
instantiated with the list length, which suffices). -/
def chunkedFuel (n : Nat) : Nat → List α → List (List α)
  | 0, _ => []
  | _, [] => []
  | fuel + 1, x :: xs => (x :: xs.take n) :: chunkedFuel n fuel (xs.drop n)

/-- more_itertools.chunked(l, 50). -/
def chunked50 (l : List α) : List (List α) := chunkedFuel 49 l.length l

/-- get_aws_batch_job_infos (lines 210-228): chunk the ids by 50, query
and reorder each chunk, concatenate, and (unless missing_ok) assert
that the returned ids are, once sorted, the requested ids. -/
def get_aws_batch_job_infos (describe : List String → List JobDict)
    (all_job_ids : List String) (missing_ok : Bool) : Except PyErr (List JobDict) :=
  if !(decide all_job_ids.Nodup) then .error .assertionError
  else
    match (chunked50 all_job_ids).foldlM
        (fun acc c => (get_aws_batch_job_infos_for_batch describe c missing_ok).map (acc ++ ·))
        ([] : List JobDict) with
    | .error e => .error e
    | .ok returned_jobs =>
      if !missing_ok &&
          decide (sortedStrings (returned_jobs.map (fun j => j.jobId)) ≠ sortedStrings all_job_ids) then
        .error .assertionError
      else .ok returned_jobs

/- ------------------------------------------------------------------
register_base_job_definition (drm_awsbatch.py lines 231-283) and the
submit_jobs driver (lines 286-428).

The str()/eval() round trip the source uses to pass mount points and
volumes through a set of tuples is modelled as the identity: the
entries travel as structured values.  The register_job_definition
call is modelled by arnOf, giving the ARN the service returns for an
image; the failure path of the fallback registration (SystemExit) is
a remote-error path outside the claims.
------------------------------------------------------------------ -/

/-- A mountPoints entry. -/
structure MountEntry where
  containerPath : String
  readOnly : Bool
  sourceVolume : String
  deriving DecidableEq, Repr

/-- A volumes entry. -/
structure VolumeEntry where
  name : String
  sourcePath : String
  deriving DecidableEq, Repr

/-- The containerProperties payload of lines 241-258.  environment is
an optional key: none means the key is absent from the payload. -/
structure ContainerProperties where
  image : String
  jobRoleArn : String
  mountPoints : List MountEntry
  volumes : List VolumeEntry
  resourceRequirements : List ResourceReq
  command : List String
  memory : Int
  vcpus : Int
  privileged : Bool
  environment : Option (List EnvVar)
  linuxParameters : Option Nat
  deriving DecidableEq, Repr

/-- The register_job_definition remote call: the template name chosen
at lines 264-276 and the containerProperties sent with it. -/
structure RegisterCall where
  jobDefinitionName : String
  containerProperties : ContainerProperties
  deriving DecidableEq, Repr

/-- register_base_job_definition.  Line 255 of the source reads

    container_properties["environment"]: [ ... ]

with a colon, not an equals sign, so it is an annotated statement that
never stores the key: the built payload carries no environment entry
whatever the environment argument holds.  Line 257 sets
linuxParameters only when shm_size is truthy (so neither for None nor
for 0). -/
def register_base_job_definition (arnOf : String → String) (container_image : String)
    (environment : Option (List (String × String))) (command : String)
    (mount_points : List MountEntry) (volumes : List VolumeEntry)
    (job_name : String) (shm_size : Option Nat) : RegisterCall × String :=
  let container_mount_points :=
    { containerPath := "/scratch", readOnly := false, sourceVolume := "scratch" } :: mount_points
  let container_volumes :=
    { name := "scratch", sourcePath := "/scratch" } :: volumes
  let container_properties : ContainerProperties :=
    { image := container_image
      jobRoleArn := "ecs_administrator"
      mountPoints := container_mount_points
      volumes := container_volumes
      resourceRequirements := []
      command := ["bash", "-c", command]
      memory := 100
      vcpus := 1
      privileged := true
      environment := none
      linuxParameters := none }
  let container_properties :=
    match environment with
    | some _ => container_properties
    | none => container_properties
  let container_properties :=
    match shm_size with
    | some n => if n ≠ 0 then { container_properties with linuxParameters := some n }
                else container_properties
    | none => container_properties
  let defName :=
    if job_name.length < 128 then "cosmos_base_jobdef_" ++ job_name
    else "cosmos_base_job_definition"
  ({ jobDefinitionName := defName, containerProperties := container_properties },
   arnOf container_image)

/-- The task object of the workflow engine, restricted to the fields
this driver reads (the Task class itself lives outside this module).
mount_points and volumes carry the structured values whose str() forms
travel through the tuple set of submit_jobs. -/
structure TaskSpec where
  uid : String
  stage_name : String
  queue : Option String
  core_req : Option Int
  cpu_req : Option Int
  mem_req : Option Int
  gpu_req : Option Nat
  environment_variables : List (String × String)
  container_image : String
  s3_prefix_for_command_script_temp_files : String
  instance_type : Option String
  output_command_script_path : String
  shm_size : Option Nat
  mount_points : List MountEntry
  volumes : List VolumeEntry
  deriving DecidableEq, Repr

/-- The two task statuses submit_jobs writes. -/
inductive TaskStatusV where
  | submitted
  | killed
  deriving DecidableEq, Repr

/-- Replacement of every occurrence of a character by a string, the
elementwise model of Python str.replace with a one-character needle. -/
def replaceChar (target : Char) (repl : List Char) : List Char → List Char
  | [] => []
  | c :: rest =>
    if c = target then repl ++ replaceChar target repl rest
    else c :: replaceChar target repl rest

/-- The job name built at lines 334-343: prefix, user, stage name and
uid with slashes turned into double underscores and colons removed,
truncated to 128 characters. -/
def mkJobName (user stage_name uid : String) : String :=
  String.mk ((("cosmos__" ++ user ++ "__").toList ++
    replaceChar ':' [] (replaceChar '/' ['_', '_'] stage_name.toList) ++
    "__".toList ++
    replaceChar ':' [] (replaceChar '/' ['_', '_'] uid.toList)).take 128)

/-- DRM_AWSBatch._submit_job (lines 324-380).  signalRaised is true
iff self.workflow.termination_signal is in TERMINATION_SIGNALS; the
very first thing the function does is skip the whole submission and
return the None triple when the signal is raised.  cache is the
image_to_job_definition dictionary (line 346 raises KeyError when the
image is missing).  Returns the triple (jobId, script uri, job
definition arn) or none, paired with the remote calls performed for
this task.  The stdout/stderr placeholder writes are local file
effects. -/
def DRM_submit_job (signalRaised : Bool) (user cwd : String)
    (cache : List (String × String)) (rnd submitJobId : String) (task : TaskSpec) :
    Except PyErr (Option (String × String × String)) × List RemoteEvent :=
  if !signalRaised then
    match task.queue with
    | none => (.error (.valueError "task.queue cannot be None"), [])
    | some queue =>
      match task.core_req with
      | none => (.error (.valueError "task.core_req cannot be None"), [])
      | some _ =>
        match task.mem_req with
        | none => (.error (.valueError "task.mem_req cannot be None"), [])
        | some _ =>
          let job_name := mkJobName user task.stage_name task.uid
          match cache.lookup task.container_image with
          | none => (.error .keyError, [])
          | some job_def_arn =>
            let r := submit_script_as_aws_batch_job task.output_command_script_path
              task.s3_prefix_for_command_script_temp_files job_name
              job_def_arn queue
              task.instance_type task.mem_req task.cpu_req task.gpu_req
              task.environment_variables
              [("job_type", "cosmos"), ("username", user),
               ("stage_name",
                String.mk (replaceChar ':' [] (replaceChar '/' ['_', '_']
                  task.stage_name.toList))),
               ("cwd", cwd)]
              rnd submitJobId
            match r.1 with
            | .error e => (.error e, r.2)
            | .ok (jobId, uri) => (.ok (some (jobId, uri, job_def_arn)), r.2)
  else (.ok none, [])

/-- The registration tuples of submit_jobs (lines 386-395). -/
abbrev RegTuple := String × Option Nat × List MountEntry × List VolumeEntry × String

/-- The registration loop of submit_jobs (lines 396-407): for each
tuple, register a base job definition only when the image has no
cached entry yet, and cache the returned arn under the image.
Returns the updated cache and the list of images actually registered,
in order. -/
def registerTuples (arnOf : String → String) :
    List RegTuple → List (String × String) → List (String × String) × List String
  | [], cache => (cache, [])
  | (container_image, shm_size, mount_points, volumes, task_uid) :: rest, cache =>
    if (cache.lookup container_image).isSome then registerTuples arnOf rest cache
    else
      let arn := (register_base_job_definition arnOf container_image none
        "user-should-override-this" mount_points volumes task_uid shm_size).2
      let out := registerTuples arnOf rest ((container_image, arn) :: cache)
      (out.1, container_image :: out.2)

/-- The per-task submission pass of submit_jobs: _submit_job is run on
each task in order (the thread pool preserves the input/output
correspondence positionally), with the termination signal sampled
before each task's submission, modelled by its value sig i at the
step of task i. -/
def submitSteps (user cwd : String) (cache : List (String × String)) (sig : Nat → Bool)
    (rnds jids : Nat → String) :
    List TaskSpec → Nat → List (Except PyErr (Option (String × String × String)) × List RemoteEvent)
  | [], _ => []
  | t :: ts, i =>
    DRM_submit_job (sig i) user cwd cache (rnds i) (jids i) t ::
      submitSteps user cwd cache sig rnds jids ts (i + 1)

/-- The status assignment loop of lines 416-428: a task whose triple
is None is marked killed, the others are marked submitted.  When any
task's thread raised, listing the pool results re-raises and the
status loop never runs, so the whole call errors. -/
def collectResults :
    List (Except PyErr (Option (String × String × String)) × List RemoteEvent) →
    Except PyErr (List (TaskStatusV × List RemoteEvent))
  | [] => .ok []
  | (.error e, _) :: _ => .error e
  | (.ok r, ev) :: rest =>
    (collectResults rest).map
      (fun l => ((match r with | some _ => TaskStatusV.submitted | none => TaskStatusV.killed), ev) :: l)

/-- The outcome of one submit_jobs call. -/
structure SubmitJobsOut where
  cache : List (String × String)
  registered : List String
  results : Except PyErr (List (TaskStatusV × List RemoteEvent))

/-- DRM_AWSBatch.submit_jobs (lines 382-428): build the set of
registration tuples (the Python set is modelled by dedup; its
iteration order does not affect the properties proved below),
register the missing job definitions, then submit every task and
assign statuses. -/
def DRM_submit_jobs (user cwd : String) (arnOf : String → String) (sig : Nat → Bool)
    (rnds jids : Nat → String) (tasks : List TaskSpec)
    (cache : List (String × String)) : SubmitJobsOut :=
  let tuples : List RegTuple :=
    (tasks.map (fun t => (t.container_image, t.shm_size, t.mount_points, t.volumes, t.uid))).dedup
  let reg := registerTuples arnOf tuples cache
  { cache := reg.1
    registered := reg.2
    results := collectResults (submitSteps user cwd reg.1 sig rnds jids tasks 0) }

/-- A sequence of submit_jobs calls on one driver instance, threading
the image_to_job_definition cache (empty at __init__, line 302) and
concatenating the registration traces. -/
def runBatches (user cwd : String) (arnOf : String → String) (sig : Nat → Bool)
    (rnds jids : Nat → String) :
    List (List TaskSpec) → List (String × String) → List (String × String) × List String
  | [], cache => (cache, [])
  | b :: bs, cache =>
    let out := DRM_submit_jobs user cwd arnOf sig rnds jids b cache
    let rest := runBatches user cwd arnOf sig rnds jids bs out.cache
    (rest.1, out.registered ++ rest.2)

/- ------------------------------------------------------------------
Theorems
------------------------------------------------------------------ -/

/-- C10: for every call to register_base_job_definition, including
calls with a non-empty environment mapping, the containerProperties
payload sent to the remote register call carries no environment
entry: the colon on line 255 makes that statement a no-op, so the
environment argument is never forwarded. -/
theorem C10_environment_dropped (arnOf : String → String) (container_image : String)
    (environment : Option (List (String × String))) (command : String)
    (mount_points : List MountEntry) (volumes : List VolumeEntry)
    (job_name : String) (shm_size : Option Nat) :
    (register_base_job_definition arnOf container_image environment command
      mount_points volumes job_name shm_size).1.containerProperties.environment = none := by
  unfold register_base_job_definition
  cases environment <;> cases shm_size <;> simp <;> split <;> rfl

/-- C4: for every task polled by filter_is_done whose remote status is
FAILED and whose extracted container exit code equals 0, the driver
raises the invariant assertion of line 471 instead of yielding an
outcome. -/
theorem C4_failed_zero_exit (job : JobDict) (l : List JobAttempt) (attempt : JobAttempt)
    (c : AttemptContainer) (h1 : job.status = "FAILED") (h2 : job.attempts = some l)
    (h3 : l.getLast? = some attempt) (h4 : attempt.container = some c)
    (h5 : c.exitCode = some 0) :
    pollOutcome job = .error .assertionError := by
  unfold pollOutcome
  rw [h2, h1]
  simp [h3, h4, h5, yieldOutcome, h1]

theorem C4_failed_zero_exit_witness :
    pollOutcome
      { jobId := "j", status := "FAILED",
        attempts := some [{ statusReason := some "reason",
                            container := some { exitCode := some 0, reason := none } }],
        container := { logStreamName := none }, startedAt := some 0, stoppedAt := some 0 } =
      .error .assertionError :=
  C4_failed_zero_exit _ _ _ _ rfl rfl rfl rfl rfl

/-- C3 counterexample: a terminal job record carrying no attempts key
at all does not make the driver raise; it yields an outcome with the
sentinel exit status -1 and reason no_attempt, refuting the claim
that a terminal record without an attempt record raises a hard
error. -/
theorem C3_counterexample :
    pollOutcome
      { jobId := "j1", status := "SUCCEEDED", attempts := none,
        container := { logStreamName := some "ls" },
        startedAt := some 1000, stoppedAt := some 3000 } =
      .ok (some { exit_status := -1, wall_time := 2, status_reason := some "no_attempt" }) :=
  rfl

/-- C3 amended: on a terminal job the driver raises a hard error only
when the attempts key is present with an empty list (attempts[-1]
raises, caught and re-raised as ValueError); when the attempts key is
absent it instead yields an outcome with sentinel exit status -1 and
status reason no_attempt. -/
theorem C3_corrected (job : JobDict)
    (hterm : job.status = "SUCCEEDED" ∨ job.status = "FAILED") :
    (job.attempts = some [] → pollOutcome job = .error (.valueError "Error with job_dict")) ∧
    (job.attempts = none →
      pollOutcome job = .ok (some { exit_status := -1, wall_time := wallTimeOf job,
                                    status_reason := some "no_attempt" })) := by
  constructor
  · intro h2
    unfold pollOutcome
    rw [if_pos hterm, h2]
    rfl
  · intro h2
    unfold pollOutcome
    rw [if_pos hterm, h2]
    show yieldOutcome job (-1) (some "no_attempt") = _
    unfold yieldOutcome
    rw [if_neg]
    intro hc
    exact absurd hc.2 (by decide)

theorem C3_corrected_witness :
    (pollOutcome
      { jobId := "j2", status := "FAILED", attempts := some [],
        container := { logStreamName := none }, startedAt := none, stoppedAt := none } =
      .error (.valueError "Error with job_dict")) ∧
    (pollOutcome
      { jobId := "j3", status := "FAILED", attempts := none,
        container := { logStreamName := none }, startedAt := some 500, stoppedAt := some 2500 } =
      .ok (some { exit_status := -1, wall_time := 2, status_reason := some "no_attempt" })) :=
  ⟨(C3_corrected _ (Or.inr rfl)).1 rfl, (C3_corrected _ (Or.inr rfl)).2 rfl⟩

/-- C2: evaluation of the pagination loop at a failing input.  With a
workflow present and its termination signal NOT raised (the normal
case for every poll-time log fetch, sig = some false), the loop stops
after the very first response even though its token t1 differs from
the initial token, returning only the first message; without a
workflow the loop behaves as the claim states and collects all three
pages, stopping exactly when the token repeats.  The inverted
membership test of line 161 is the code bug. -/
theorem C2_code_bug_eval :
    getLogsText (some false)
      [{ messages := ["line1"], nextForwardToken := "t1" },
       { messages := ["line2"], nextForwardToken := "t2" },
       { messages := ["line3"], nextForwardToken := "t2" }] = some "line1" ∧
    getLogsText none
      [{ messages := ["line1"], nextForwardToken := "t1" },
       { messages := ["line2"], nextForwardToken := "t2" },
       { messages := ["line3"], nextForwardToken := "t2" }] = some "line1\nline2\nline3" :=
  ⟨rfl, rfl⟩

/-- Exhausting the retry budget: with the stream absent for the first
n attempts (n being the attempts budget), the placeholder string is
returned, and the later elements of the environment are never
queried. -/
theorem getLogs_notFound (log_stream_name : String) (rest : List (Option (List LogPage))) :
    ∀ n, 1 ≤ n →
      get_logs_from_log_stream log_stream_name none (List.replicate n none ++ rest) n =
        some ("log stream not found for log_stream_name: " ++ log_stream_name ++ "\n") := by
  intro n
  induction n with
  | zero => intro h; omega
  | succ m ih =>
    intro _
    rw [List.replicate_succ, List.cons_append]
    simp only [get_logs_from_log_stream]
    by_cases hm : m + 1 ≤ 1
    · rw [if_pos hm]
    · rw [if_neg hm]
      have hms : m + 1 - 1 = m := by omega
      rw [hms]
      exact ih (by omega)

/-- A successful attempt within the budget returns that attempt's
joined messages. -/
theorem getLogs_success (log_stream_name : String) (rest : List (Option (List LogPage)))
    (pages : List LogPage) (s : String) (hs : getLogsText none pages = some s) :
    ∀ k n, k + 1 ≤ n →
      get_logs_from_log_stream log_stream_name none
        (List.replicate k none ++ some pages :: rest) n = some s := by
  intro k
  induction k with
  | zero =>
    intro n _
    rw [List.replicate_zero, List.nil_append]
    simp only [get_logs_from_log_stream]
    exact hs
  | succ m ih =>
    intro n hn
    rw [List.replicate_succ, List.cons_append]
    simp only [get_logs_from_log_stream]
    rw [if_neg (by omega)]
    have hms : n - 1 = (n - 1) := rfl
    exact ih (n - 1) (by omega)

/-- C8: with the stream absent on every attempt, the retriever retries
up to the attempts budget and then returns the descriptive
placeholder string instead of raising (probing nothing beyond the
budget); with the stream absent for k attempts and present on attempt
k + 1 within the budget, it returns the joined messages of the
successful attempt. -/
theorem C8_retry (log_stream_name : String) (n k : Nat)
    (rest : List (Option (List LogPage))) (pages : List LogPage) (s : String) :
    (1 ≤ n →
      get_logs_from_log_stream log_stream_name none (List.replicate n none ++ rest) n =
        some ("log stream not found for log_stream_name: " ++ log_stream_name ++ "\n")) ∧
    (k + 1 ≤ n → getLogsText none pages = some s →
      get_logs_from_log_stream log_stream_name none
        (List.replicate k none ++ some pages :: rest) n = some s) :=
  ⟨fun h => getLogs_notFound log_stream_name rest n h,
   fun h hs => getLogs_success log_stream_name rest pages s hs k n h⟩

theorem C8_retry_witness :
    (1 ≤ 3 ∧
      get_logs_from_log_stream "ls" none (List.replicate 3 none ++ []) 3 =
        some "log stream not found for log_stream_name: ls\n") ∧
    (1 + 1 ≤ 3 ∧
      getLogsText none [{ messages := ["m"], nextForwardToken := "t" },
                        { messages := [], nextForwardToken := "t" }] = some "m" ∧
      get_logs_from_log_stream "ls" none
        (List.replicate 1 none ++
          some [{ messages := ["m"], nextForwardToken := "t" },
                { messages := [], nextForwardToken := "t" }] :: []) 3 = some "m") :=
  ⟨⟨by decide,
    (C8_retry "ls" 3 1 []
      [{ messages := ["m"], nextForwardToken := "t" },
       { messages := [], nextForwardToken := "t" }] "m").1 (by decide)⟩,
   ⟨by decide, rfl,
    (C8_retry "ls" 3 1 []
      [{ messages := ["m"], nextForwardToken := "t" },
       { messages := [], nextForwardToken := "t" }] "m").2 (by decide) rfl⟩⟩

/-- takeWhile keeps a list all of whose elements satisfy the
predicate. -/
theorem takeWhile_all_dot : ∀ (l : List Char), (∀ c ∈ l, dotChar c = true) →
    l.takeWhile dotChar = l := by
  intro l h
  induction l with
  | nil => rfl
  | cons c rest ih =>
    rw [List.takeWhile_cons, h c (List.mem_cons_self _ _),
      ih (fun x hx => h x (List.mem_cons_of_mem _ hx))]
    simp

/-- Soundness of the lazy-group scan over a newline-free remainder:
a successful result splits the scanned text around one slash, with a
nonempty second group. -/
theorem lazySplitAux_sound : ∀ (r : List Char), (∀ c ∈ r, dotChar c = true) →
    ∀ accRev A g, lazySplitAux accRev r = some (A, g) →
      A ++ '/' :: g = accRev.reverse ++ r ∧ g ≠ [] := by
  intro r
  induction r with
  | nil =>
    intro _ accRev A g h
    simp [lazySplitAux] at h
  | cons c rest ih =>
    intro hall accRev A g h
    have hc : dotChar c = true := hall c (List.mem_cons_self _ _)
    have hrest : ∀ x ∈ rest, dotChar x = true :=
      fun x hx => hall x (List.mem_cons_of_mem _ hx)
    cases rest with
    | nil =>
      rw [lazySplitAux, if_pos hc] at h
      simp [lazySplitAux] at h
    | cons c2 rest2 =>
      rw [lazySplitAux, if_pos hc] at h
      by_cases h2 : c2 = '/'
      · rw [if_pos h2] at h
        by_cases h3 : (rest2.takeWhile dotChar).isEmpty
        · rw [if_pos h3] at h
          have hres := ih hrest (c :: accRev) A g h
          refine ⟨?_, hres.2⟩
          rw [hres.1, List.reverse_cons, List.append_assoc, List.singleton_append]
        · rw [if_neg h3] at h
          have htw : rest2.takeWhile dotChar = rest2 :=
            takeWhile_all_dot rest2
              (fun x hx => hrest x (List.mem_cons_of_mem _ hx))
          rw [htw] at h h3
          injection h with h
          injection h with hA hg
          subst hA; subst hg; subst h2
          constructor
          · rw [List.reverse_cons, List.append_assoc, List.singleton_append]
          · intro hemp
            rw [hemp] at h3
            exact h3 rfl
      · rw [if_neg h2] at h
        have hres := ih hrest (c :: accRev) A g h
        refine ⟨?_, hres.2⟩
        rw [hres.1, List.reverse_cons, List.append_assoc, List.singleton_append]

/-- Completeness of the lazy-group scan: when the scanned text splits
as a nonempty newline-free group, a slash, and a nonempty
newline-free remainder, the scan succeeds. -/
theorem lazySplitAux_complete : ∀ (A : List Char), A ≠ [] →
    ∀ (g : List Char), g ≠ [] → (∀ c ∈ A, dotChar c = true) → (∀ c ∈ g, dotChar c = true) →
    ∀ accRev, (lazySplitAux accRev (A ++ '/' :: g)).isSome = true := by
  intro A
  induction A with
  | nil => intro h; exact absurd rfl h
  | cons a A2 ih =>
    intro _ g hg hA hg2 accRev
    have ha : dotChar a = true := hA a (List.mem_cons_self _ _)
    have hA2 : ∀ c ∈ A2, dotChar c = true :=
      fun c hc => hA c (List.mem_cons_of_mem _ hc)
    cases A2 with
    | nil =>
      rw [List.cons_append, List.nil_append]
      rw [lazySplitAux, if_pos ha, if_pos rfl, takeWhile_all_dot g hg2]
      cases g with
      | nil => exact absurd rfl hg
      | cons x xs =>
        rw [if_neg (by simp)]
        rfl
    | cons b A3 =>
      rw [List.cons_append]
      have htail : (b :: A3) ++ '/' :: g = b :: (A3 ++ '/' :: g) := List.cons_append ..
      rw [htail]
      rw [lazySplitAux, if_pos ha]
      by_cases hb : b = '/'
      · rw [if_pos hb]
        have hall3 : ∀ c ∈ A3 ++ '/' :: g, dotChar c = true := by
          intro c hc
          rcases List.mem_append.mp hc with h | h
          · exact hA2 c (List.mem_cons_of_mem _ h)
          · rcases List.mem_cons.mp h with h | h
            · subst h; rfl
            · exact hg2 c h
        rw [takeWhile_all_dot _ hall3]
        by_cases hemp : (A3 ++ '/' :: g).isEmpty
        · rw [List.isEmpty_iff] at hemp
          exact absurd hemp (by simp)
        · rw [if_neg hemp]
          rfl
      · rw [if_neg hb]
        rw [← List.cons_append]
        exact ih (by simp) g hg (fun c hc => hA2 c hc) hg2 (a :: accRev)

/-- C9 counterexample: splitting a URI with no key beyond the bucket
does raise, but the error is the AttributeError coming from calling
.groups() on the failed regex search, not the explicit validation
ValueError, which is unreachable. -/
theorem C9_counterexample :
    split_bucket_key "s3://bucket/" = .error .attributeError := rfl

/-- C9 amended: for every well-formed URI of the shape scheme, bucket,
slash, nonempty key (bucket and key newline-free), split_bucket_key
returns a bucket/key pair whose rejoining with the scheme and
separator reproduces the original URI; splitting a URI with no key
beyond the bucket raises an error, but an AttributeError from the
failed pattern match rather than the explicit validation error. -/
theorem C9_roundtrip (b k : List Char) (hb : b ≠ []) (hk : k ≠ [])
    (hbd : ∀ c ∈ b, dotChar c = true) (hkd : ∀ c ∈ k, dotChar c = true) :
    (∃ b2 k2 : List Char,
      split_bucket_key (String.mk ("s3://".toList ++ (b ++ '/' :: k))) =
        .ok (String.mk b2, String.mk k2) ∧
      "s3://" ++ String.mk b2 ++ "/" ++ String.mk k2 =
        String.mk ("s3://".toList ++ (b ++ '/' :: k))) ∧
    split_bucket_key "s3://bucket/" = .error .attributeError := by
  refine ⟨?_, rfl⟩
  have hall : ∀ c ∈ b ++ '/' :: k, dotChar c = true := by
    intro c hc
    rcases List.mem_append.mp hc with h | h
    · exact hbd c h
    · rcases List.mem_cons.mp h with h | h
      · subst h; rfl
      · exact hkd c h
  have hsome := lazySplitAux_complete b hb k hk hbd hkd []
  obtain ⟨⟨A, g⟩, heq⟩ := Option.isSome_iff_exists.mp hsome
  have hsound := lazySplitAux_sound (b ++ '/' :: k) hall [] A g heq
  have hphys : A ++ '/' :: g = b ++ '/' :: k := hsound.1
  have hgne : g ≠ [] := hsound.2
  have h1 : reSearchS3 (String.mk ("s3://".toList ++ (b ++ '/' :: k))).toList =
      some (A, g) := by
    show (match matchS3At ('s' :: '3' :: ':' :: '/' :: '/' :: (b ++ '/' :: k)) with
          | some r => some r
          | none => reSearchS3 ('3' :: ':' :: '/' :: '/' :: (b ++ '/' :: k))) = some (A, g)
    have hm : matchS3At ('s' :: '3' :: ':' :: '/' :: '/' :: (b ++ '/' :: k)) =
        lazySplitAux [] (b ++ '/' :: k) := by
      rw [matchS3At, if_pos ⟨rfl, rfl, rfl, rfl, rfl⟩]
    rw [hm, heq]
  refine ⟨A, g, ?_, ?_⟩
  · unfold split_bucket_key
    simp only [h1]
    rw [if_neg]
    intro hmk
    have : g = [] := congrArg String.data hmk
    exact hgne this
  · show String.mk ((("s3://".toList ++ A) ++ ['/']) ++ g) = _
    apply congrArg String.mk
    rw [List.append_assoc, List.append_assoc, List.singleton_append, ← List.append_assoc,
      List.append_assoc]
    rw [hphys]

theorem C9_roundtrip_witness :
    ∃ b2 k2 : List Char,
      split_bucket_key
        (String.mk ("s3://".toList ++ ("bucket".toList ++ '/' :: "path/to/fname".toList))) =
        .ok (String.mk b2, String.mk k2) ∧
      "s3://" ++ String.mk b2 ++ "/" ++ String.mk k2 =
        String.mk ("s3://".toList ++ ("bucket".toList ++ '/' :: "path/to/fname".toList)) :=
  (C9_roundtrip "bucket".toList "path/to/fname".toList (by decide) (by decide)
    (by decide) (by decide)).1

/-- Unpacking of the spec validity notion. -/
theorem specValid_core (s : String) (h : specValidJobName s = true) :
    jobNameRegexCore s.toList = true ∧ s.length ≤ 128 := by
  unfold specValidJobName at h
  rw [Bool.and_eq_true] at h
  exact ⟨h.1, of_decide_eq_true h.2⟩

/-- Every character of a name matched by the pattern body belongs to
the job-name character class. -/
theorem core_chars (cs : List Char) (h : jobNameRegexCore cs = true) :
    ∀ c ∈ cs, isJobNameChar c = true := by
  cases cs with
  | nil => simp [jobNameRegexCore] at h
  | cons c rest =>
    rw [jobNameRegexCore] at h
    rw [Bool.and_eq_true] at h
    intro x hx
    rcases List.mem_cons.mp hx with hx | hx
    · subst hx
      unfold isJobNameChar
      rw [h.1]
      rfl
    · exact List.all_eq_true.mp h.2 x hx

/-- A character outside the class does not occur in a name matched by
the pattern body. -/
theorem chars_contains_false (cs : List Char) (hall : ∀ c ∈ cs, isJobNameChar c = true)
    (x : Char) (hx : isJobNameChar x = false) : cs.contains x = false := by
  cases hb : cs.contains x with
  | false => rfl
  | true =>
    have hmem : x ∈ cs := List.elem_iff.mp hb
    rw [hall x hmem] at hx
    exact absurd hx (by decide)

/-- A spec-valid name contains neither a space nor a colon, so the
early check of line 70 passes. -/
theorem valid_no_space_colon (s : String) (h : specValidJobName s = true) :
    (s.toList.contains ' ' || s.toList.contains ':') = false := by
  have hall := core_chars s.toList (specValid_core s h).1
  rw [chars_contains_false s.toList hall ' ' (by decide),
    chars_contains_false s.toList hall ':' (by decide)]
  rfl

/-- A spec-valid name passes the regex and length gate of line 118. -/
theorem valid_gate (s : String) (h : specValidJobName s = true) :
    (!(matchesJobNameRegex s) || decide (s.length > 128)) = false := by
  obtain ⟨h1, h2⟩ := specValid_core s h
  have hm : matchesJobNameRegex s = true := by
    unfold matchesJobNameRegex
    rw [h1]
    rfl
  rw [hm, decide_eq_false (by omega : ¬ s.length > 128)]
  rfl

/-- A newline-free name that is not spec-valid fails the regex and
length gate of line 118 (the gate fires). -/
theorem invalid_gate (s : String) (hnl : '\n' ∉ s.toList) (hsv : specValidJobName s = false) :
    (!(matchesJobNameRegex s) || decide (s.length > 128)) = true := by
  unfold specValidJobName at hsv
  rcases Bool.and_eq_false_iff.mp hsv with h | h
  · have hm : matchesJobNameRegex s = false := by
      unfold matchesJobNameRegex
      rw [h, Bool.false_or]
      cases hgl : s.toList.getLast? with
      | none => simp
      | some c =>
        by_cases hcn : c = '\n'
        · subst hcn
          exact absurd (List.mem_of_getLast?_eq_some hgl) hnl
        · simp [hcn]
    rw [hm]
    rfl
  · have hlen : s.length > 128 := by
      have := of_decide_eq_false h
      omega
    rw [decide_eq_true hlen, Bool.or_true]

/-- C1 counterexample: for the invalid name a.b (the dot is outside
the allowed character set, and the name holds neither a space nor a
colon), the function uploads the script to object storage first and
only then raises the validation error: the error does not precede
every remote call. -/
theorem C1_counterexample :
    submit_script_as_aws_batch_job "/tmp/script.sh" "s3://bucket/pre" "a.b"
        "arn" "q" none (some 1024) (some 1) none [] [] "RND" "jid" =
      (.error (.valueError "a.b is not a valid job name"),
       [RemoteEvent.uploadFile "/tmp/script.sh" "bucket" "pre/RND.a.b.script"]) := rfl

/-- C1 amended: for every newline-free job name submitted with a
well-formed prefix, a name holding a space or a colon is rejected
with a validation error before any remote call; every other invalid
name (by the spec notion: alphanumeric start, allowed character set,
at most 128 characters) is rejected with a validation error after the
script upload but still before submit_job; every valid name reaches
payload construction and the submit call successfully. -/
theorem C1_corrected (job_name rnd jid : String) (hnl : '\n' ∉ job_name.toList) :
    ((job_name.toList.contains ' ' || job_name.toList.contains ':') = true →
      submit_script_as_aws_batch_job "/tmp/script.sh" "s3://bucket/pre" job_name
          "arn" "q" none (some 1024) (some 1) none [] [] rnd jid =
        (.error (.valueError ("job_name is invalid: " ++ job_name)), [])) ∧
    (specValidJobName job_name = false →
      (job_name.toList.contains ' ' || job_name.toList.contains ':') = false →
      submit_script_as_aws_batch_job "/tmp/script.sh" "s3://bucket/pre" job_name
          "arn" "q" none (some 1024) (some 1) none [] [] rnd jid =
        (.error (.valueError (job_name ++ " is not a valid job name")),
         [RemoteEvent.uploadFile "/tmp/script.sh" "bucket"
            ("pre" ++ "/" ++ rnd ++ "." ++ job_name ++ ".script")])) ∧
    (specValidJobName job_name = true →
      ∃ pr, (submit_script_as_aws_batch_job "/tmp/script.sh" "s3://bucket/pre" job_name
          "arn" "q" none (some 1024) (some 1) none [] [] rnd jid).1 = .ok pr) := by
  refine ⟨?_, ?_, ?_⟩
  · intro h
    unfold submit_script_as_aws_batch_job
    rw [h]
    exact rfl
  · intro hsv hnc
    unfold submit_script_as_aws_batch_job
    rw [hnc, invalid_gate job_name hnl hsv]
    exact rfl
  · intro hsv
    unfold submit_script_as_aws_batch_job
    rw [valid_no_space_colon job_name hsv, valid_gate job_name hsv]
    exact ⟨(jid, "s3://" ++ "bucket" ++ "/" ++
      ("pre" ++ "/" ++ rnd ++ "." ++ job_name ++ ".script")), rfl⟩

theorem C1_corrected_witness :
    (submit_script_as_aws_batch_job "/tmp/script.sh" "s3://bucket/pre" "a b"
        "arn" "q" none (some 1024) (some 1) none [] [] "RND" "jid" =
      (.error (.valueError "job_name is invalid: a b"), [])) ∧
    (submit_script_as_aws_batch_job "/tmp/script.sh" "s3://bucket/pre" "-x"
        "arn" "q" none (some 1024) (some 1) none [] [] "RND" "jid" =
      (.error (.valueError "-x is not a valid job name"),
       [RemoteEvent.uploadFile "/tmp/script.sh" "bucket" "pre/RND.-x.script"])) ∧
    (∃ pr, (submit_script_as_aws_batch_job "/tmp/script.sh" "s3://bucket/pre" "job-1"
        "arn" "q" none (some 1024) (some 1) none [] [] "RND" "jid").1 = .ok pr) :=
  ⟨(C1_corrected "a b" "RND" "jid" (by decide)).1 (by decide),
   (C1_corrected "-x" "RND" "jid" (by decide)).2.1 (by decide) (by decide),
   (C1_corrected "job-1" "RND" "jid" (by decide)).2.2 (by decide)⟩

/-- The per-task steps of submit_jobs, elementwise: step i runs
_submit_job on task i with the signal value sampled at that step. -/
theorem submitSteps_get? (user cwd : String) (cache : List (String × String)) (sig : Nat → Bool)
    (rnds jids : Nat → String) :
    ∀ (tasks : List TaskSpec) (i0 i : Nat),
      (submitSteps user cwd cache sig rnds jids tasks i0).get? i =
        (tasks.get? i).map
          (fun t => DRM_submit_job (sig (i0 + i)) user cwd cache (rnds (i0 + i)) (jids (i0 + i)) t) := by
  intro tasks
  induction tasks with
  | nil => intro i0 i; cases i <;> rfl
  | cons t ts ih =>
    intro i0 i
    cases i with
    | zero => simp [submitSteps]
    | succ m =>
      show (submitSteps user cwd cache sig rnds jids ts (i0 + 1)).get? m = _
      rw [ih (i0 + 1) m]
      have hidx : i0 + (m + 1) = (i0 + 1) + m := by omega
      rw [hidx]
      rfl

/-- When the status loop runs (no thread raised), the entry of task i
is the status derived from step i's triple together with step i's
remote-call trace. -/
theorem collectResults_get? :
    ∀ (steps : List (Except PyErr (Option (String × String × String)) × List RemoteEvent))
      (out : List (TaskStatusV × List RemoteEvent)),
      collectResults steps = .ok out →
      ∀ (i : Nat) (r : Option (String × String × String)) (ev : List RemoteEvent),
        steps.get? i = some (.ok r, ev) →
        out.get? i = some
          ((match r with | some _ => TaskStatusV.submitted | none => TaskStatusV.killed), ev) := by
  intro steps
  induction steps with
  | nil =>
    intro out hout i r ev hstep
    simp at hstep
  | cons p rest ih =>
    intro out hout i r ev hstep
    obtain ⟨pe, pev⟩ := p
    cases pe with
    | error e => exact absurd hout (by simp [collectResults])
    | ok r0 =>
      simp only [collectResults] at hout
      cases hrest : collectResults rest with
      | error e =>
        rw [hrest] at hout
        exact absurd hout (by simp [Except.map])
      | ok out0 =>
        rw [hrest] at hout
        simp only [Except.map] at hout
        injection hout with hout
        subst hout
        cases i with
        | zero =>
          simp only [List.get?] at hstep
          injection hstep with hstep
          rw [Prod.ext_iff] at hstep
          obtain ⟨h1, h2⟩ := hstep
          injection h1 with h1
          subst h1
          subst h2
          rfl
        | succ m => exact ih out0 hrest m r ev hstep

/-- C6: a task whose submission step observes the owner's termination
signal performs no remote call and is marked killed; the signal is
sampled per task, so any task whose step runs after the signal is
raised is skipped, whatever happened to earlier tasks of the
batch. -/
theorem C6_killed (user cwd : String) (arnOf : String → String) (sig : Nat → Bool)
    (rnds jids : Nat → String) (tasks : List TaskSpec) (cache : List (String × String))
    (out : List (TaskStatusV × List RemoteEvent)) (i : Nat) (t : TaskSpec)
    (hsig : sig i = true)
    (hout : (DRM_submit_jobs user cwd arnOf sig rnds jids tasks cache).results = .ok out)
    (ht : tasks.get? i = some t) :
    out.get? i = some (TaskStatusV.killed, ([] : List RemoteEvent)) := by
  have hout2 : collectResults
      (submitSteps user cwd
        (registerTuples arnOf
          ((tasks.map (fun t =>
            (t.container_image, t.shm_size, t.mount_points, t.volumes, t.uid))).dedup)
          cache).1 sig rnds jids tasks 0) = .ok out := hout
  have hstep := submitSteps_get? user cwd
    (registerTuples arnOf
      ((tasks.map (fun t =>
        (t.container_image, t.shm_size, t.mount_points, t.volumes, t.uid))).dedup)
      cache).1 sig rnds jids tasks 0 i
  rw [ht] at hstep
  rw [Nat.zero_add] at hstep
  rw [hsig] at hstep
  have := collectResults_get? _ out hout2 i none [] (by rw [hstep]; rfl)
  exact this

/-- A concrete task used by witnesses. -/
def sampleTask : TaskSpec :=
  { uid := "u1", stage_name := "stage1", queue := some "q", core_req := some 1,
    cpu_req := some 1, mem_req := some 1024, gpu_req := none,
    environment_variables := [], container_image := "img",
    s3_prefix_for_command_script_temp_files := "s3://bucket/pre",
    instance_type := none, output_command_script_path := "/tmp/script.sh",
    shm_size := none, mount_points := [], volumes := [] }

theorem C6_killed_witness :
    ((DRM_submit_jobs "user" "/cwd" (fun _ => "arn") (fun _ => true) (fun _ => "R") (fun _ => "J")
        [sampleTask, sampleTask] []).results =
      .ok [(TaskStatusV.killed, []), (TaskStatusV.killed, [])]) ∧
    ([(TaskStatusV.killed, ([] : List RemoteEvent)),
      (TaskStatusV.killed, ([] : List RemoteEvent))].get? 1 =
      some (TaskStatusV.killed, ([] : List RemoteEvent))) :=
  ⟨rfl,
   C6_killed "user" "/cwd" (fun _ => "arn") (fun _ => true) (fun _ => "R") (fun _ => "J")
     [sampleTask, sampleTask] [] _ 1 sampleTask rfl rfl rfl⟩

/-- Once an image is cached, the registration loop neither registers
it again nor changes its cached entry. -/
theorem registerTuples_cached (arnOf : String → String) (image : String) :
    ∀ (l : List RegTuple) (cache : List (String × String)),
      (cache.lookup image).isSome = true →
      (registerTuples arnOf l cache).2.count image = 0 ∧
      (registerTuples arnOf l cache).1.lookup image = cache.lookup image := by
  intro l
  induction l with
  | nil => intro cache _; exact ⟨rfl, rfl⟩
  | cons tup rest ih =>
    intro cache h
    obtain ⟨img, shm, mp, vol, uid⟩ := tup
    by_cases hc : (cache.lookup img).isSome = true
    · simp only [registerTuples]
      rw [if_pos hc]
      exact ih cache h
    · simp only [registerTuples]
      rw [if_neg hc]
      have hne : img ≠ image := by
        intro he
        rw [he] at hc
        exact hc h
      have hlook : (((img,
          (register_base_job_definition arnOf img none "user-should-override-this"
            mp vol uid shm).2) :: cache).lookup image) = cache.lookup image := by
        simp only [List.lookup]
        rw [beq_eq_false_iff_ne.mpr (fun he => hne he.symm)]
      have hrec := ih (((img,
        (register_base_job_definition arnOf img none "user-should-override-this"
          mp vol uid shm).2)) :: cache) (by rw [hlook]; exact h)
      constructor
      · rw [List.count_cons_of_ne (fun he => hne he.symm)]
        exact hrec.1
      · rw [hrec.2, hlook]

/-- An image that the registration loop did register is cached
afterwards. -/
theorem registerTuples_registers (arnOf : String → String) (image : String) :
    ∀ (l : List RegTuple) (cache : List (String × String)),
      image ∈ (registerTuples arnOf l cache).2 →
      ((registerTuples arnOf l cache).1.lookup image).isSome = true := by
  intro l
  induction l with
  | nil => intro cache h; simp [registerTuples] at h
  | cons tup rest ih =>
    intro cache h
    obtain ⟨img, shm, mp, vol, uid⟩ := tup
    by_cases hc : (cache.lookup img).isSome = true
    · simp only [registerTuples] at h ⊢
      rw [if_pos hc] at h ⊢
      exact ih cache h
    · simp only [registerTuples] at h ⊢
      rw [if_neg hc] at h ⊢
      rcases List.mem_cons.mp h with he | he
      · subst he
        have hself : ((((image,
            (register_base_job_definition arnOf image none "user-should-override-this"
              mp vol uid shm).2)) :: cache).lookup image).isSome = true := by
          simp [List.lookup]
        rw [(registerTuples_cached arnOf image rest _ hself).2]
        exact hself
      · exact ih _ he

/-- The registration loop registers an image at most once. -/
theorem registerTuples_count (arnOf : String → String) (image : String) :
    ∀ (l : List RegTuple) (cache : List (String × String)),
      (registerTuples arnOf l cache).2.count image ≤ 1 := by
  intro l
  induction l with
  | nil => intro cache; simp [registerTuples]
  | cons tup rest ih =>
    intro cache
    obtain ⟨img, shm, mp, vol, uid⟩ := tup
    by_cases hc : (cache.lookup img).isSome = true
    · simp only [registerTuples]
      rw [if_pos hc]
      exact ih cache
    · simp only [registerTuples]
      rw [if_neg hc]
      by_cases he : img = image
      · subst he
        have hself : ((((img,
            (register_base_job_definition arnOf img none "user-should-override-this"
              mp vol uid shm).2)) :: cache).lookup img).isSome = true := by
          simp [List.lookup]
        rw [List.count_cons_self]
        rw [(registerTuples_cached arnOf img rest _ hself).1]
      · rw [List.count_cons_of_ne (fun hx => he hx.symm)]
        exact ih _

/-- Across successive submit_jobs calls, a cached image is never
registered again and stays cached. -/
theorem runBatches_cached (user cwd : String) (arnOf : String → String) (sig : Nat → Bool)
    (rnds jids : Nat → String) (image : String) :
    ∀ (batches : List (List TaskSpec)) (cache : List (String × String)),
      (cache.lookup image).isSome = true →
      (runBatches user cwd arnOf sig rnds jids batches cache).2.count image = 0 ∧
      (((runBatches user cwd arnOf sig rnds jids batches cache).1.lookup image).isSome = true) := by
  intro batches
  induction batches with
  | nil => intro cache h; exact ⟨rfl, h⟩
  | cons b bs ih =>
    intro cache h
    simp only [runBatches, DRM_submit_jobs]
    have hreg := registerTuples_cached arnOf image
      ((b.map (fun t =>
        (t.container_image, t.shm_size, t.mount_points, t.volumes, t.uid))).dedup) cache h
    have hrec := ih _ (by rw [hreg.2]; exact h)
    constructor
    · rw [List.count_append, hreg.1, hrec.1]
    · exact hrec.2

/-- Across successive submit_jobs calls starting from any cache, an
image is registered at most once. -/
theorem runBatches_count (user cwd : String) (arnOf : String → String) (sig : Nat → Bool)
    (rnds jids : Nat → String) (image : String) :
    ∀ (batches : List (List TaskSpec)) (cache : List (String × String)),
      (runBatches user cwd arnOf sig rnds jids batches cache).2.count image ≤ 1 := by
  intro batches
  induction batches with
  | nil => intro cache; simp [runBatches]
  | cons b bs ih =>
    intro cache
    simp only [runBatches, DRM_submit_jobs]
    rw [List.count_append]
    set tuples := (b.map (fun t =>
      (t.container_image, t.shm_size, t.mount_points, t.volumes, t.uid))).dedup with htup
    by_cases hc : (cache.lookup image).isSome = true
    · rw [(registerTuples_cached arnOf image tuples cache hc).1,
        (runBatches_cached user cwd arnOf sig rnds jids image bs _
          (by rw [(registerTuples_cached arnOf image tuples cache hc).2]; exact hc)).1]
      omega
    · by_cases hm : image ∈ (registerTuples arnOf tuples cache).2
      · have h1 := registerTuples_count arnOf image tuples cache
        have h2 := registerTuples_registers arnOf image tuples cache hm
        rw [(runBatches_cached user cwd arnOf sig rnds jids image bs _ h2).1]
        omega
      · rw [List.count_eq_zero.mpr hm]
        have := ih (registerTuples arnOf tuples cache).1
        omega

/-- C7: within one driver instance, at most one remote
register-template call is performed per distinct container image
across any sequence of submit_jobs calls; once an image is cached, a
later submit_jobs call performs no registration for it and leaves its
cached template identifier unchanged (so the cached identifier is
reused). -/
theorem C7_register_once (user cwd : String) (arnOf : String → String) (sig : Nat → Bool)
    (rnds jids : Nat → String) (batches : List (List TaskSpec)) (image : String) :
    (runBatches user cwd arnOf sig rnds jids batches []).2.count image ≤ 1 ∧
    (∀ (tasks : List TaskSpec) (cache : List (String × String)),
      (cache.lookup image).isSome = true →
      (DRM_submit_jobs user cwd arnOf sig rnds jids tasks cache).registered.count image = 0 ∧
      (DRM_submit_jobs user cwd arnOf sig rnds jids tasks cache).cache.lookup image =
        cache.lookup image) := by
  constructor
  · exact runBatches_count user cwd arnOf sig rnds jids image batches []
  · intro tasks cache h
    exact registerTuples_cached arnOf image
      ((tasks.map (fun t =>
        (t.container_image, t.shm_size, t.mount_points, t.volumes, t.uid))).dedup) cache h

theorem C7_register_once_witness :
    ((([("img", "arn0")] : List (String × String)).lookup "img").isSome = true) ∧
    ((DRM_submit_jobs "user" "/cwd" (fun _ => "arn") (fun _ => false) (fun _ => "R")
        (fun _ => "J") [sampleTask] [("img", "arn0")]).registered.count "img" = 0) ∧
    ((DRM_submit_jobs "user" "/cwd" (fun _ => "arn") (fun _ => false) (fun _ => "R")
        (fun _ => "J") [sampleTask] [("img", "arn0")]).cache.lookup "img" =
      ([("img", "arn0")] : List (String × String)).lookup "img") :=
  ⟨by decide,
   ((C7_register_once "user" "/cwd" (fun _ => "arn") (fun _ => false) (fun _ => "R")
      (fun _ => "J") [] "img").2 [sampleTask] [("img", "arn0")] (by decide)).1,
   ((C7_register_once "user" "/cwd" (fun _ => "arn") (fun _ => false) (fun _ => "R")
      (fun _ => "J") [] "img").2 [sampleTask] [("img", "arn0")] (by decide)).2⟩

/-- Characters with equal code points are equal. -/
theorem char_toNat_inj {a b : Char} (h : a.toNat = b.toNat) : a = b :=
  Char.ext (UInt32.ext h)

/-- Totality of the code-point order. -/
theorem lexLe_total : ∀ (a b : List Char), lexLe a b = true ∨ lexLe b a = true := by
  intro a
  induction a with
  | nil => intro b; exact Or.inl rfl
  | cons x as ih =>
    intro b
    cases b with
    | nil => exact Or.inr rfl
    | cons y bs =>
      by_cases hxy : x = y
      · subst hxy
        rcases ih bs with h | h
        · exact Or.inl (by rw [lexLe, if_pos rfl]; exact h)
        · exact Or.inr (by rw [lexLe, if_pos rfl]; exact h)
      · have hne : x.toNat ≠ y.toNat := fun he => hxy (char_toNat_inj he)
        rcases Nat.lt_or_ge x.toNat y.toNat with h | h
        · exact Or.inl (by rw [lexLe, if_neg hxy]; exact decide_eq_true h)
        · refine Or.inr ?_
          rw [lexLe, if_neg (fun he => hxy he.symm)]
          exact decide_eq_true (by omega)

/-- Transitivity of the code-point order. -/
theorem lexLe_trans : ∀ (a b c : List Char),
    lexLe a b = true → lexLe b c = true → lexLe a c = true := by
  intro a
  induction a with
  | nil => intro b c _ _; rfl
  | cons x as ih =>
    intro b c hab hbc
    cases b with
    | nil => rw [lexLe] at hab; exact absurd hab (by decide)
    | cons y bs =>
      cases c with
      | nil => rw [lexLe] at hbc; exact absurd hbc (by decide)
      | cons z cs =>
        rw [lexLe] at hab hbc ⊢
        by_cases hxy : x = y
        · subst hxy
          rw [if_pos rfl] at hab
          by_cases hyz : x = z
          · subst hyz
            rw [if_pos rfl] at hbc ⊢
            exact ih bs cs hab hbc
          · rw [if_neg hyz] at hbc ⊢
            exact hbc
        · rw [if_neg hxy] at hab
          by_cases hyz : y = z
          · subst hyz
            rw [if_neg hxy]
            exact hab
          · rw [if_neg hyz] at hbc
            have h1 : x.toNat < y.toNat := of_decide_eq_true hab
            have h2 : y.toNat < z.toNat := of_decide_eq_true hbc
            have hxz : x ≠ z := fun he => by
              rw [he] at h1
              omega
            rw [if_neg hxz]
            exact decide_eq_true (by omega)

/-- Antisymmetry of the code-point order. -/
theorem lexLe_antisymm : ∀ (a b : List Char),
    lexLe a b = true → lexLe b a = true → a = b := by
  intro a
  induction a with
  | nil =>
    intro b _ hba
    cases b with
    | nil => rfl
    | cons y bs => rw [lexLe] at hba; exact absurd hba (by decide)
  | cons x as ih =>
    intro b hab hba
    cases b with
    | nil => rw [lexLe] at hab; exact absurd hab (by decide)
    | cons y bs =>
      rw [lexLe] at hab hba
      by_cases hxy : x = y
      · subst hxy
        rw [if_pos rfl] at hab hba
        rw [ih bs hab hba]
      · rw [if_neg hxy] at hab
        rw [if_neg (fun he => hxy he.symm)] at hba
        have h1 : x.toNat < y.toNat := of_decide_eq_true hab
        have h2 : y.toNat < x.toNat := of_decide_eq_true hba
        omega

instance strLE.isTotal : IsTotal String strLE :=
  ⟨fun a b => lexLe_total a.toList b.toList⟩

instance strLE.isTrans : IsTrans String strLE :=
  ⟨fun a b c hab hbc => lexLe_trans a.toList b.toList c.toList hab hbc⟩

instance strLE.isAntisymm : IsAntisymm String strLE :=
  ⟨fun a b hab hba => by
    cases a with
    | mk da =>
      cases b with
      | mk db => exact congrArg String.mk (lexLe_antisymm da db hab hba)⟩

/-- Python sorted returns a permutation of its input. -/
theorem sortedStrings_perm (l : List String) : (sortedStrings l).Perm l :=
  List.perm_insertionSort strLE l

/-- Python sorted returns a sorted list. -/
theorem sortedStrings_sorted (l : List String) : List.Sorted strLE (sortedStrings l) :=
  List.sorted_insertionSort strLE l

/-- Permutations of string lists sort identically. -/
theorem sortedStrings_eq_of_perm {l1 l2 : List String} (h : l1.Perm l2) :
    sortedStrings l1 = sortedStrings l2 :=
  List.eq_of_perm_of_sorted
    ((sortedStrings_perm l1).trans (h.trans (sortedStrings_perm l2).symm))
    (sortedStrings_sorted l1) (sortedStrings_sorted l2)

/-- Equal sort results mean the inputs are permutations. -/
theorem perm_of_sortedStrings_eq {l1 l2 : List String}
    (h : sortedStrings l1 = sortedStrings l2) : l1.Perm l2 :=
  (sortedStrings_perm l1).symm.trans (h ▸ sortedStrings_perm l2)

/-- list.index succeeds on members. -/
theorem pyIndex_isSome_of_mem : ∀ (c : List String) (a : String), a ∈ c →
    (pyIndex c a).isSome = true := by
  intro c
  induction c with
  | nil => intro a h; simp at h
  | cons x rest ih =>
    intro a h
    rw [pyIndex]
    by_cases hx : x = a
    · rw [if_pos hx]; rfl
    · rw [if_neg hx]
      rcases List.mem_cons.mp h with he | he
      · exact absurd he.symm hx
      · have hsome := ih a he
        cases hp : pyIndex rest a with
        | none => rw [hp] at hsome; exact absurd hsome (by decide)
        | some i => rfl

/-- list.index only succeeds on members. -/
theorem pyIndex_mem_of_isSome : ∀ (c : List String) (a : String),
    (pyIndex c a).isSome = true → a ∈ c := by
  intro c
  induction c with
  | nil => intro a h; simp [pyIndex] at h
  | cons x rest ih =>
    intro a h
    rw [pyIndex] at h
    by_cases hx : x = a
    · exact hx ▸ List.mem_cons_self x rest
    · rw [if_neg hx] at h
      cases hp : pyIndex rest a with
      | none => rw [hp] at h; exact absurd h (by decide)
      | some i => exact List.mem_cons_of_mem x (ih a (by rw [hp]; rfl))

/-- On a duplicate-free list, indexing each element in order yields
the successive natural numbers. -/
theorem pyIndex_map_self : ∀ (c : List String), c.Nodup →
    c.map (fun a => ((pyIndex c a).getD 0, a)) = (List.range c.length).zip c := by
  intro c
  induction c with
  | nil => intro _; rfl
  | cons x rest ih =>
    intro hnd
    have hx_notmem : x ∉ rest := (List.nodup_cons.mp hnd).1
    have hrest_nd : rest.Nodup := (List.nodup_cons.mp hnd).2
    rw [List.map_cons]
    have hmap : rest.map (fun a => ((pyIndex (x :: rest) a).getD 0, a)) =
        (rest.map (fun a => ((pyIndex rest a).getD 0, a))).map
          (fun p => (p.1 + 1, p.2)) := by
      rw [List.map_map]
      refine List.map_congr_left ?_
      intro a ha
      have hne : x ≠ a := fun he => hx_notmem (he ▸ ha)
      have hsome := pyIndex_isSome_of_mem rest a ha
      show ((pyIndex (x :: rest) a).getD 0, a) = ((pyIndex rest a).getD 0 + 1, a)
      rw [pyIndex, if_neg hne]
      cases hp : pyIndex rest a with
      | none => rw [hp] at hsome; exact absurd hsome (by decide)
      | some i => rfl
    rw [hmap, ih hrest_nd]
    rw [List.length_cons, List.range_succ_eq_map]
    rw [List.zip_cons_cons, List.zip_map_left]
    rw [show pyIndex (x :: rest) x = some 0 from by rw [pyIndex, if_pos rfl]]
    rfl

/-- Option-valued mapM evaluated when every element succeeds. -/
theorem mapM_option_eq_map {α β : Type} (f : α → Option β) (g : α → β) :
    ∀ (l : List α), (∀ a ∈ l, f a = some (g a)) → l.mapM f = some (l.map g) := by
  intro l
  induction l with
  | nil => intro _; rfl
  | cons a rest ih =>
    intro h
    rw [List.mapM_cons, h a (List.mem_cons_self _ _),
      ih (fun x hx => h x (List.mem_cons_of_mem _ hx))]
    rfl

/-- The computed keys when every returned id occurs in the request. -/
theorem describeKeyed_eq_map (c : List String) (jobs : List JobDict)
    (h : ∀ j ∈ jobs, j.jobId ∈ c) :
    describeKeyed c jobs =
      some (jobs.map (fun j => ((pyIndex c j.jobId).getD 0, j))) := by
  unfold describeKeyed
  refine mapM_option_eq_map _ _ jobs ?_
  intro j hj
  have hsome := pyIndex_isSome_of_mem c j.jobId (h j hj)
  cases hp : pyIndex c j.jobId with
  | none => rw [hp] at hsome; exact absurd hsome (by decide)
  | some i => rfl

/-- A successful key computation only pairs each record with a key and
keeps the records. -/
theorem describeKeyed_snd (c : List String) :
    ∀ (jobs : List JobDict) (keyed : List (Nat × JobDict)),
      describeKeyed c jobs = some keyed → keyed.map (fun p => p.2) = jobs := by
  intro jobs
  induction jobs with
  | nil =>
    intro keyed h
    unfold describeKeyed at h
    rw [List.mapM_nil] at h
    injection h with h2
    rw [← h2]
    rfl
  | cons j rest ih =>
    intro keyed h
    unfold describeKeyed at h
    rw [List.mapM_cons] at h
    cases hj : (pyIndex c j.jobId).map (fun i => (i, j)) with
    | none => rw [hj] at h; exact absurd h (by simp)
    | some p =>
      rw [hj] at h
      cases hrest : rest.mapM
          (fun j => (pyIndex c j.jobId).map (fun i => (i, j))) with
      | none =>
        rw [show (rest.mapM (fun j => (pyIndex c j.jobId).map (fun i => (i, j)))) = none
            from hrest] at h
        exact absurd h (by simp)
      | some keyed0 =>
        rw [show (rest.mapM (fun j => (pyIndex c j.jobId).map (fun i => (i, j)))) = some keyed0
            from hrest] at h
        simp only [Option.bind_some, Option.bind_eq_bind] at h
        have hkeyed : keyed = p :: keyed0 := by
          cases h; rfl
        subst hkeyed
        rw [List.map_cons, ih keyed0 hrest]
        obtain ⟨i0, hi0, hp0⟩ := Option.map_eq_some'.mp hj
        rw [← hp0]

/-- Every record keyed successfully has its id in the request. -/
theorem describeKeyed_mem (c : List String) :
    ∀ (jobs : List JobDict) (keyed : List (Nat × JobDict)),
      describeKeyed c jobs = some keyed → ∀ j ∈ jobs, j.jobId ∈ c := by
  intro jobs
  induction jobs with
  | nil => intro keyed _ j hj; simp at hj
  | cons j0 rest ih =>
    intro keyed h j hj
    unfold describeKeyed at h
    rw [List.mapM_cons] at h
    cases hj0 : (pyIndex c j0.jobId).map (fun i => (i, j0)) with
    | none => rw [hj0] at h; exact absurd h (by simp)
    | some p =>
      rw [hj0] at h
      cases hrest : rest.mapM
          (fun j => (pyIndex c j.jobId).map (fun i => (i, j))) with
      | none =>
        rw [show (rest.mapM (fun j => (pyIndex c j.jobId).map (fun i => (i, j)))) = none
            from hrest] at h
        exact absurd h (by simp)
      | some keyed0 =>
        rcases List.mem_cons.mp hj with he | he
        · subst he
          have hsome : (pyIndex c j.jobId).isSome = true := by
            obtain ⟨i0, hi0, _⟩ := Option.map_eq_some'.mp hj0
            rw [hi0]; rfl
          exact pyIndex_mem_of_isSome c j.jobId hsome
        · exact ih keyed0 hrest j he

/-- The central ordering fact: sorting the keyed records by their
index in a duplicate-free request list and projecting the ids
recovers the request list, provided the returned ids are a
permutation of the requested ones. -/
theorem keyed_sort_order (c : List String) (hnd : c.Nodup) (jobs : List JobDict)
    (hperm : (jobs.map (fun j => j.jobId)).Perm c) :
    (((jobs.map (fun j => ((pyIndex c j.jobId).getD 0, j))).insertionSort keyLE).map
      (fun p => p.2.jobId)) = c := by
  set keyed := jobs.map (fun j => ((pyIndex c j.jobId).getD 0, j)) with hkeyed
  set sortedK := keyed.insertionSort keyLE with hsortedK
  set f : Nat × JobDict → Nat × String := fun p => (p.1, p.2.jobId) with hf
  set target := (List.range c.length).zip c with htarget
  have hpermK : (sortedK.map f).Perm target := by
    have h1 : (sortedK.map f).Perm (keyed.map f) :=
      (List.perm_insertionSort keyLE keyed).map f
    have h2 : keyed.map f =
        (jobs.map (fun j => j.jobId)).map (fun a => ((pyIndex c a).getD 0, a)) := by
      rw [hkeyed, List.map_map, List.map_map]
      rfl
    have h3 : ((jobs.map (fun j => j.jobId)).map
        (fun a => ((pyIndex c a).getD 0, a))).Perm
        (c.map (fun a => ((pyIndex c a).getD 0, a))) := hperm.map _
    rw [pyIndex_map_self c hnd] at h3
    exact h1.trans (h2 ▸ h3)
  have hsorted : List.Pairwise keyLE sortedK := List.sorted_insertionSort keyLE keyed
  have hsorted2 : List.Pairwise (fun a b : Nat × String => a.1 ≤ b.1) (sortedK.map f) :=
    List.pairwise_map.mpr hsorted
  have hkeysnd : ((sortedK.map f).map Prod.fst).Nodup := by
    have hp : ((sortedK.map f).map Prod.fst).Perm (target.map Prod.fst) :=
      hpermK.map Prod.fst
    rw [htarget, List.map_fst_zip _ _ (by rw [List.length_range])] at hp
    exact hp.nodup_iff.mpr (List.nodup_range c.length)
  have hne : List.Pairwise (fun a b : Nat × String => a.1 ≠ b.1) (sortedK.map f) :=
    List.pairwise_map.mp hkeysnd
  have hlt : List.Pairwise (fun a b : Nat × String => a.1 < b.1) (sortedK.map f) :=
    (hsorted2.and hne).imp (fun h => lt_of_le_of_ne h.1 h.2)
  have htlt : List.Pairwise (fun a b : Nat × String => a.1 < b.1) target := by
    refine List.pairwise_map.mp ?_
    rw [htarget, List.map_fst_zip _ _ (by rw [List.length_range])]
    exact List.pairwise_lt_range c.length
  haveI : IsAntisymm (Nat × String) (fun a b => a.1 < b.1) :=
    ⟨fun a b h1 h2 => absurd (Nat.lt_trans h1 h2) (Nat.lt_irrefl _)⟩
  have heq : sortedK.map f = target :=
    List.eq_of_perm_of_sorted hpermK hlt htlt
  have hfinal : (sortedK.map f).map Prod.snd = target.map Prod.snd := by rw [heq]
  rw [List.map_map] at hfinal
  rw [htarget, List.map_snd_zip _ _ (by rw [List.length_range])] at hfinal
  exact hfinal

/-- A batch whose response ids are exactly the requested ids (up to
order) is returned reordered to the request order. -/
theorem batch_ok (describe : List String → List JobDict) (c : List String)
    (hnd : c.Nodup) (hperm : ((describe c).map (fun j => j.jobId)).Perm c) :
    ∃ R, get_aws_batch_job_infos_for_batch describe c false = .ok R ∧
      R.map (fun j => j.jobId) = c := by
  have hmem : ∀ j ∈ describe c, j.jobId ∈ c :=
    fun j hj => hperm.subset (List.mem_map_of_mem _ hj)
  have hkey := describeKeyed_eq_map c (describe c) hmem
  have horder := keyed_sort_order c hnd (describe c) hperm
  have hids : ((((describe c).map (fun j => ((pyIndex c j.jobId).getD 0, j))).insertionSort
      keyLE).map (fun p => p.2)).map (fun j => j.jobId) = c := by
    rw [List.map_map]
    exact horder
  refine ⟨_, ?_, hids⟩
  unfold get_aws_batch_job_infos_for_batch
  rw [decide_eq_true hnd]
  simp only [hkey]
  rw [hids]
  simp

/-- A batch whose response ids do not form the requested id set is
rejected with an error (an assertion failure, the ValueError from
list.index, or the JobStatusMismatchError of line 206). -/
theorem batch_err (describe : List String → List JobDict) (c : List String)
    (hbad : ¬ ((∀ x ∈ (describe c).map (fun j => j.jobId), x ∈ c) ∧
               (∀ x ∈ c, x ∈ (describe c).map (fun j => j.jobId)))) :
    ∃ e, get_aws_batch_job_infos_for_batch describe c false = .error e := by
  by_cases hnd : c.Nodup
  · cases hkey : describeKeyed c (describe c) with
    | none =>
      refine ⟨.valueError "is not in list", ?_⟩
      unfold get_aws_batch_job_infos_for_batch
      rw [decide_eq_true hnd]
      simp only [hkey]
      rfl
    | some keyed =>
      have hsub : ∀ x ∈ (describe c).map (fun j => j.jobId), x ∈ c := by
        intro x hx
        obtain ⟨j, hj, hjx⟩ := List.mem_map.mp hx
        exact hjx ▸ describeKeyed_mem c (describe c) keyed hkey j hj
      have hnsub : ¬ (∀ x ∈ c, x ∈ (describe c).map (fun j => j.jobId)) :=
        fun hx => hbad ⟨hsub, hx⟩
      have hRperm : (((keyed.insertionSort keyLE).map (fun p => p.2)).map
          (fun j => j.jobId)).Perm ((describe c).map (fun j => j.jobId)) := by
        have h1 : ((keyed.insertionSort keyLE).map (fun p => p.2)).Perm
            (keyed.map (fun p => p.2)) := (List.perm_insertionSort keyLE keyed).map _
        rw [describeKeyed_snd c (describe c) keyed hkey] at h1
        exact h1.map _
      have hneq : sortedStrings (((keyed.insertionSort keyLE).map (fun p => p.2)).map
          (fun j => j.jobId)) ≠ sortedStrings c := by
        intro he
        have hperm2 := perm_of_sortedStrings_eq he
        have : ∀ x ∈ c, x ∈ (describe c).map (fun j => j.jobId) := by
          intro x hx
          exact hRperm.subset (hperm2.symm.subset hx)
        exact hnsub this
      refine ⟨.jobStatusMismatchError, ?_⟩
      unfold get_aws_batch_job_infos_for_batch
      rw [decide_eq_true hnd]
      simp only [hkey]
      rw [decide_eq_true hneq]
      rfl
  · refine ⟨.assertionError, ?_⟩
    unfold get_aws_batch_job_infos_for_batch
    rw [decide_eq_false hnd]
    rfl

/-- Chunking with enough fuel partitions the list. -/
theorem chunkedFuel_join {α : Type} (n : Nat) :
    ∀ (fuel : Nat) (l : List α), l.length ≤ fuel → (chunkedFuel n fuel l).flatten = l := by
  intro fuel
  induction fuel with
  | zero =>
    intro l hl
    rw [Nat.le_zero] at hl
    rw [List.length_eq_zero.mp hl]
    rfl
  | succ m ih =>
    intro l hl
    cases l with
    | nil => rfl
    | cons x xs =>
      rw [chunkedFuel, List.flatten_cons]
      rw [ih (xs.drop n) (by rw [List.length_drop]; rw [List.length_cons] at hl; omega)]
      rw [List.cons_append, List.take_append_drop]

/-- Every chunk is a sublist of the chunked list. -/
theorem chunkedFuel_sublist {α : Type} (n : Nat) :
    ∀ (fuel : Nat) (l c : List α), c ∈ chunkedFuel n fuel l → c.Sublist l := by
  intro fuel
  induction fuel with
  | zero => intro l c hc; simp [chunkedFuel] at hc
  | succ m ih =>
    intro l c hc
    cases l with
    | nil => simp [chunkedFuel] at hc
    | cons x xs =>
      rw [chunkedFuel] at hc
      rcases List.mem_cons.mp hc with he | he
      · rw [he]
        exact List.Sublist.cons₂ x (List.take_sublist n xs)
      · exact (ih (xs.drop n) c he).trans
          (List.Sublist.cons x (List.drop_sublist n xs))

/-- The per-chunk fold of get_aws_batch_job_infos when every chunk
answers with a permutation of its request. -/
theorem fold_ok (describe : List String → List JobDict) :
    ∀ (chunks : List (List String)) (acc : List JobDict),
      (∀ c ∈ chunks, c.Nodup) →
      (∀ c ∈ chunks, ((describe c).map (fun j => j.jobId)).Perm c) →
      ∃ R, chunks.foldlM
          (fun acc c => (get_aws_batch_job_infos_for_batch describe c false).map (acc ++ ·))
          acc = .ok R ∧
        R.map (fun j => j.jobId) = acc.map (fun j => j.jobId) ++ chunks.flatten := by
  intro chunks
  induction chunks with
  | nil =>
    intro acc _ _
    exact ⟨acc, rfl, by simp⟩
  | cons c cs ih =>
    intro acc hnd hperm
    obtain ⟨Rc, hRc, hRcids⟩ := batch_ok describe c (hnd c (List.mem_cons_self _ _))
      (hperm c (List.mem_cons_self _ _))
    obtain ⟨R, hR, hRids⟩ := ih (acc ++ Rc)
      (fun x hx => hnd x (List.mem_cons_of_mem _ hx))
      (fun x hx => hperm x (List.mem_cons_of_mem _ hx))
    refine ⟨R, ?_, ?_⟩
    · rw [List.foldlM_cons, hRc]
      exact hR
    · rw [hRids, List.flatten_cons, List.map_append, hRcids, List.append_assoc]

/-- The per-chunk fold errors as soon as some chunk is rejected. -/
theorem fold_err (describe : List String → List JobDict) :
    ∀ (chunks : List (List String)) (acc : List JobDict),
      (∃ c ∈ chunks, ∃ e, get_aws_batch_job_infos_for_batch describe c false = .error e) →
      ∃ e, chunks.foldlM
          (fun acc c => (get_aws_batch_job_infos_for_batch describe c false).map (acc ++ ·))
          acc = .error e := by
  intro chunks
  induction chunks with
  | nil =>
    intro acc h
    obtain ⟨c, hc, _⟩ := h
    simp at hc
  | cons c cs ih =>
    intro acc h
    cases hb : get_aws_batch_job_infos_for_batch describe c false with
    | error e =>
      refine ⟨e, ?_⟩
      rw [List.foldlM_cons, hb]
      rfl
    | ok Rc =>
      obtain ⟨c0, hc0, e0, he0⟩ := h
      rcases List.mem_cons.mp hc0 with he | he
      · rw [he] at he0
        rw [hb] at he0
        exact absurd he0 (by simp)
      · obtain ⟨e, hfold⟩ := ih (acc ++ Rc) ⟨c0, he, e0, he0⟩
        refine ⟨e, ?_⟩
        rw [List.foldlM_cons, hb]
        exact hfold

/-- A sample job record used in witnesses and counterexamples. -/
def sampleJob (i : String) : JobDict :=
  { jobId := i, status := "RUNNING", attempts := none,
    container := { logStreamName := none }, startedAt := none, stoppedAt := none }

/-- C5 counterexample: a describe-jobs response whose id multiset
holds a duplicate can have exactly the requested id set (both
inclusions hold), yet get_aws_batch_job_infos raises
JobStatusMismatchError instead of returning the records in request
order, refuting the claim that agreement of the sets suffices. -/
theorem C5_counterexample :
    ((∀ x ∈ ([sampleJob "a", sampleJob "a", sampleJob "b"].map (fun j => j.jobId)),
        x ∈ (["a", "b"] : List String)) ∧
     (∀ x ∈ (["a", "b"] : List String),
        x ∈ ([sampleJob "a", sampleJob "a", sampleJob "b"].map (fun j => j.jobId)))) ∧
    get_aws_batch_job_infos (fun _ => [sampleJob "a", sampleJob "a", sampleJob "b"])
        ["a", "b"] false = .error .jobStatusMismatchError :=
  ⟨by decide, by decide⟩

/-- C5 amended: without missing_ok, whenever some chunk's response id
set differs from the requested chunk, get_aws_batch_job_infos raises
an error (never silently swallowing the mismatch); and when every
chunk's response ids are exactly the requested ids as a multiset
(i.e. a permutation, which rules out duplicated records), the call
succeeds and returns the records in the order of the requested
ids. -/
theorem C5_corrected (describe : List String → List JobDict) (all_job_ids : List String) :
    ((∃ c ∈ chunked50 all_job_ids,
        ¬ ((∀ x ∈ (describe c).map (fun j => j.jobId), x ∈ c) ∧
           (∀ x ∈ c, x ∈ (describe c).map (fun j => j.jobId)))) →
      ∃ e, get_aws_batch_job_infos describe all_job_ids false = .error e) ∧
    (all_job_ids.Nodup →
      (∀ c ∈ chunked50 all_job_ids, ((describe c).map (fun j => j.jobId)).Perm c) →
      ∃ R, get_aws_batch_job_infos describe all_job_ids false = .ok R ∧
        R.map (fun j => j.jobId) = all_job_ids) := by
  constructor
  · intro hbadx
    by_cases hnd : all_job_ids.Nodup
    · obtain ⟨c, hc, hbad⟩ := hbadx
      obtain ⟨e0, he0⟩ := batch_err describe c hbad
      obtain ⟨e, hfold⟩ := fold_err describe (chunked50 all_job_ids) [] ⟨c, hc, e0, he0⟩
      refine ⟨e, ?_⟩
      unfold get_aws_batch_job_infos
      rw [decide_eq_true hnd]
      simp only [hfold]
      rfl
    · refine ⟨.assertionError, ?_⟩
      unfold get_aws_batch_job_infos
      rw [decide_eq_false hnd]
      rfl
  · intro hnd hperm
    have hcnd : ∀ c ∈ chunked50 all_job_ids, c.Nodup :=
      fun c hc =>
        List.Nodup.sublist (chunkedFuel_sublist 49 all_job_ids.length all_job_ids c hc) hnd
    obtain ⟨R, hfold, hids⟩ := fold_ok describe (chunked50 all_job_ids) [] hcnd hperm
    have hjoin : (chunked50 all_job_ids).flatten = all_job_ids :=
      chunkedFuel_join 49 all_job_ids.length all_job_ids (le_refl _)
    rw [List.map_nil, List.nil_append, hjoin] at hids
    refine ⟨R, ?_, hids⟩
    unfold get_aws_batch_job_infos
    rw [decide_eq_true hnd]
    simp only [hfold]
    rw [hids]
    simp

theorem C5_corrected_witness :
    ((∃ c ∈ chunked50 (["b"] : List String),
        ¬ ((∀ x ∈ (((fun (_ : List String) => ([] : List JobDict)) c).map (fun j => j.jobId)),
              x ∈ c) ∧
           (∀ x ∈ c, x ∈ (((fun (_ : List String) => ([] : List JobDict)) c).map
              (fun j => j.jobId))))) ∧
     (∃ e, get_aws_batch_job_infos (fun _ => ([] : List JobDict)) ["b"] false = .error e)) ∧
    ((["a", "b"] : List String).Nodup ∧
     (∀ c ∈ chunked50 (["a", "b"] : List String),
        (((fun (l : List String) => (l.map sampleJob).reverse) c).map
          (fun j => j.jobId)).Perm c) ∧
     (∃ R, get_aws_batch_job_infos (fun l => (l.map sampleJob).reverse) ["a", "b"] false =
          .ok R ∧
        R.map (fun j => j.jobId) = ["a", "b"])) :=
  ⟨⟨by decide,
    (C5_corrected (fun _ => ([] : List JobDict)) ["b"]).1 (by decide)⟩,
   ⟨by decide, by decide,
    (C5_corrected (fun l => (l.map sampleJob).reverse) ["a", "b"]).2 (by decide) (by decide)⟩⟩
